import Mathlib

/-!
Verification development for the cppnet networking framework.

The definitions below are a shallow embedding of the repository's core
subsystems, translated from the C++ sources:

  * `Timers.*`   — src/include/net/timers/timers.hpp and
                   src/include/net/timers/impl/timers_impl.hpp
  * `Service.*`  — src/include/net/service/impl/async_context_impl.hpp,
                   context_thread_impl.hpp, async_tcp_service_impl.hpp and
                   async_udp_service_impl.hpp

Modelling conventions:
  * The monotonic clock is modelled as `Int` (a count of microsecond
    ticks); `std::chrono::microseconds` durations are likewise `Int`,
    so every `duration_cast<duration>` in the sources is the identity.
  * Timer handlers (`std::function<void(timer_id)>`) are inert in the
    model: an event stores `Option Nat` (a tag; `none` is the null
    `std::function`), and handler invocations are recorded in a log of
    fired timer ids instead of being executed.
  * `std::priority_queue<event_ref, vector, greater<>>` is a min-heap
    keyed on `expires_at`, with unspecified order among equal keys.  It
    is modelled as a list kept sorted by `expires_at` ascending;
    `push` inserts after existing entries with an equal key (one of the
    orders the heap is allowed to produce), `top` is the head and `pop`
    the tail.  Every concrete input evaluated below uses pairwise
    distinct keys, so no conclusion depends on the tie order.
  * `std::stack<timer_id>` (`free_ids`) keeps its top at the list head.
-/

namespace Timers

/-- `INVALID_TIMER = static_cast<std::size_t>(-1)` (timers.hpp). -/
def INVALID_TIMER : Nat := 2 ^ 64 - 1

/-- `net::timers::detail::event` (timers.hpp).  The handler is an inert
tag, `none` standing for a null `std::function`. -/
structure Event where
  handler : Option Nat
  id : Nat
  start : Int
  period : Int
  armed : Bool
deriving DecidableEq, Repr

instance : Inhabited Event := ⟨⟨none, INVALID_TIMER, 0, 0, false⟩⟩

/-- `net::timers::detail::event_ref` (timers.hpp): `(expires_at, id)`. -/
structure EventRef where
  expires_at : Int
  id : Nat
deriving DecidableEq, Repr

/-- The anonymous state struct of `net::timers::timers` (timers.hpp):
`events` (deque indexed by id), `eventq` (min-heap of `event_ref`),
`free_ids` (stack of recyclable ids). -/
structure TState where
  events : List Event
  eventq : List EventRef
  free_ids : List Nat
deriving DecidableEq, Repr

/-- A default-constructed `timers` object: all containers empty. -/
def emptyT : TState := ⟨[], [], []⟩

/-- `eventq.push(ref)`: minimum-first priority-queue insertion, modelled
as ordered insertion into the ascending list; an entry with an equal key
goes after the existing ones (a legal tie order for the heap). -/
def heapPush (q : List EventRef) (r : EventRef) : List EventRef :=
  match q with
  | [] => [r]
  | x :: xs => if r.expires_at < x.expires_at then r :: x :: xs else x :: heapPush xs r

/-- `timers::add(timestamp when, handler_t handler, duration period)`
(timers_impl.hpp lines 83-112).  Allocates an id — preferring the top of
`free_ids`, otherwise `events.size()` with an `emplace_back` — fills in
the event slot, arms it, and pushes `(when, tid)` onto the heap.  The
`Interrupt::interrupt()` byte-poke has no effect on this state.
Returns the new state and the returned `timer_id`. -/
def add (s : TState) (when : Int) (handler : Nat) (period : Int) : TState × Nat :=
  let tid := match s.free_ids with
    | [] => s.events.length
    | t :: _ => t
  let rest := match s.free_ids with
    | [] => ([] : List Nat)
    | _ :: ts => ts
  let ev : Event := ⟨some handler, tid, when, period, true⟩
  let events := if tid = s.events.length then s.events ++ [ev] else s.events.set tid ev
  (⟨events, heapPush s.eventq ⟨when, tid⟩, rest⟩, tid)

/-- `timers::add` duration overload (timers_impl.hpp lines 118-126):
`add(clock::now() + duration_cast<duration>(when), handler, period)`.
`now` is the value of `clock::now()` at the call. -/
def addDur (s : TState) (now : Int) (when : Int) (handler : Nat) (period : Int) :
    TState × Nat :=
  add s (now + when) handler period

/-- `timers::add` `std::uint64_t` overload (timers_impl.hpp lines
132-137): `add(duration(when), handler, duration(period))`. -/
def addU64 (s : TState) (now : Int) (when : Nat) (handler : Nat) (period : Nat) :
    TState × Nat :=
  addDur s now (when : Int) handler (period : Int)

/-- `timers::remove(timer_id tid)` (timers_impl.hpp lines 140-151): out
of bounds (`tid >= events.size()`) returns `tid` unchanged; otherwise
clears `armed` only and returns `INVALID_TIMER`. -/
def remove (s : TState) (tid : Nat) : TState × Nat :=
  if s.events.length ≤ tid then (s, tid)
  else
    (⟨s.events.set tid { s.events.getD tid default with armed := false },
      s.eventq, s.free_ids⟩, INVALID_TIMER)

/-- The loop of `dequeue_timers` (timers_impl.hpp lines 163-194) over
the remaining heap `q`.  An unarmed top — whatever its expiry — has its
handler nulled, its id pushed onto `free_ids`, and is popped; an armed
top with a future expiry stops the loop; an armed expired top is popped
onto the working list `tmp` (returned last, in pop order). -/
def dequeueLoop (now : Int) (events : List Event) (q : List EventRef)
    (free : List Nat) : List Event × List EventRef × List Nat × List EventRef :=
  match q with
  | [] => (events, [], free, [])
  | next :: rest =>
    let ev := events.getD next.id default
    if ev.armed = false then
      dequeueLoop now (events.set next.id { ev with handler := none }) rest
        (next.id :: free)
    else if now < next.expires_at then
      (events, next :: rest, free, [])
    else
      let r := dequeueLoop now events rest free
      (r.1, r.2.1, r.2.2.1, next :: r.2.2.2)

/-- `dequeue_timers(state)` (timers_impl.hpp lines 163-194), with `now`
the value of `clock::now()` read at its start.  Returns the updated
state and the vector of dequeued armed `event_ref`s. -/
def dequeue_timers (now : Int) (s : TState) : TState × List EventRef :=
  let r := dequeueLoop now s.events s.eventq s.free_ids
  (⟨r.1, r.2.1, r.2.2.1⟩, r.2.2.2)

/-- One application of the predicate that `timers::resolve` passes to
`std::ranges::remove_if` (timers_impl.hpp lines 248-258): fire the
handler if the event is armed, clear `armed` when `period == 0`, and
report `!armed` (true = element removed).  Returns the updated events,
the fired ids (the log of handler invocations), and the removal flag. -/
def fireStep (events : List Event) (r : EventRef) :
    List Event × List Nat × Bool :=
  let ev := events.getD r.id default
  let log := if ev.armed then [r.id] else []
  let events := if ev.period = 0 then events.set r.id { ev with armed := false }
    else events
  let armedAfter := if ev.period = 0 then false else ev.armed
  (events, log, !armedAfter)

/-- `std::ranges::remove_if(timers, pred)` in `timers::resolve`: the
predicate is applied to each element exactly once, left to right, and
the kept (still-armed) elements retain their relative order at the
front.  Returns the final events, the concatenated fired-id log, and
the kept list. -/
def fireFold (events : List Event) (l : List EventRef) :
    List Event × List Nat × List EventRef :=
  match l with
  | [] => (events, [], [])
  | r :: rest =>
    let s1 := fireStep events r
    let s2 := fireFold s1.1 rest
    (s2.1, s1.2.1 ++ s2.2.1, (if s1.2.2 then [] else [r]) ++ s2.2.2)

/-- The first loop of `update_timers` (timers_impl.hpp lines 217-221):
for each entry of the armed section, `expires_at += events[id].period`
and push onto the heap.  The loop never modifies `events`, so they are
passed as a fixed parameter. -/
def pushArmed (events : List Event) (q : List EventRef) (l : List EventRef) :
    List EventRef :=
  match l with
  | [] => q
  | r :: rest =>
    pushArmed events
      (heapPush q ⟨r.expires_at + (events.getD r.id default).period, r.id⟩) rest

/-- The second loop of `update_timers` (timers_impl.hpp lines 223-227):
for each entry of the unarmed section, null the event's handler and push
its id onto `free_ids`.  The loop never touches the heap. -/
def reclaimUnarmed (events : List Event) (free : List Nat) (l : List EventRef) :
    List Event × List Nat :=
  match l with
  | [] => (events, free)
  | r :: rest =>
    reclaimUnarmed (events.set r.id { events.getD r.id default with handler := none })
      (r.id :: free) rest

/-- `update_timers(state, begin, unarmed, end)` (timers_impl.hpp lines
211-234).  Runs the two loops (the first touches only the heap, the
second only `events`/`free_ids`, so they commute and are modelled side
by side), then returns `duration(-1)` if the heap is empty, else
`max(0, top.expires_at - clock::now())` with `now` the clock value read
there. -/
def update_timers (now : Int) (s : TState) (armedL unarmedL : List EventRef) :
    TState × Int :=
  let q := pushArmed s.events s.eventq armedL
  let rf := reclaimUnarmed s.events s.free_ids unarmedL
  match q with
  | [] => (⟨rf.1, q, rf.2⟩, -1)
  | top :: _ => (⟨rf.1, q, rf.2⟩, max 0 (top.expires_at - now))

/-- `timers::resolve()` (timers_impl.hpp lines 237-263).  `now1` is the
clock reading inside `dequeue_timers`, `now2` the one inside
`update_timers` (handlers may take time between the two).

The ranges of the `std::ranges::remove_if` result are modelled after
what the call leaves in the vector: the kept (still-armed) entries in
order at the front, and — because every write of the single-pass
remove_if algorithm targets an index below the returned iterator and
`event_ref` is trivially copyable — the positions from the returned
iterator to the end still hold the vector's ORIGINAL values at those
positions, i.e. `tmp.drop kept.length`.  (They do NOT hold the removed
entries; C++ leaves them unspecified, and this is what the standard
single-pass implementation produces.)  `resolve` nevertheless passes
that tail to `update_timers` as its unarmed section.

Returns the final state, the returned duration, and the log of handler
invocations (fired ids in order). -/
def resolve (now1 now2 : Int) (s : TState) : TState × Int × List Nat :=
  let dq := dequeue_timers now1 s
  let ff := fireFold dq.1.events dq.2
  let upd := update_timers now2 ⟨ff.1, dq.1.eventq, dq.1.free_ids⟩ ff.2.2
    (dq.2.drop ff.2.2.length)
  (upd.1, upd.2, ff.2.1)

end Timers

namespace Service

/-- `async_context::context_states` (async_context.hpp):
`PENDING = 0, STARTED, STOPPED`. -/
inductive ContextState where
  | PENDING
  | STARTED
  | STOPPED
deriving DecidableEq, Repr

/-- The signal-mask slice of an `async_context`: the `std::atomic<std::uint64_t>
sigmask` member. -/
structure SigCtx where
  sigmask : Nat
deriving DecidableEq, Repr

/-- `async_context::signal(signum)` (async_context_impl.hpp lines 52-57):
`sigmask.fetch_or(1 << signum)` followed by `interrupt()` (the interrupt
byte-poke does not change this state). -/
def signal (n : Nat) (c : SigCtx) : SigCtx :=
  ⟨c.sigmask ||| (1 <<< n)⟩

/-- The drain loop of the signal ISR installed by `context_thread::start`
(context_thread_impl.hpp lines 56-61):

  for (int signum = 0; auto mask = (sigmask_ >> signum); ++signum)
    if (mask & (1 << 0)) service.signal_handler(signum);

Returns the list of `signum` values passed to `service.signal_handler`,
in invocation order, starting from bit position `signum`. -/
def isrLoop (m : Nat) (signum : Nat) : List Nat :=
  if m >>> signum = 0 then []
  else if (m >>> signum) &&& 1 = 1 then signum :: isrLoop m (signum + 1)
  else isrLoop m (signum + 1)
termination_by m + 1 - signum
decreasing_by
  all_goals
    rename_i h _
    have h2 : 2 ^ signum ≤ m := by
      by_contra hc
      apply h
      rw [Nat.shiftRight_eq_div_pow]
      exact Nat.div_eq_of_lt (Nat.lt_of_not_le hc)
    have h3 : signum < m := Nat.lt_of_lt_of_le (Nat.lt_two_pow signum) h2
    omega

/-- The signal ISR routine of `context_thread::start` (context_thread_impl.hpp
lines 55-73), restricted to its observable effect on the signal mask and the
service: `auto sigmask_ = sigmask.exchange(0);` then the drain loop.  Returns
the context with the mask zeroed and the list of `signal_handler` invocations.
(The terminate branch that follows requests the scope's stop and installs a
repeating 1-second timer; it performs no further `signal_handler` call inside
the routine.) -/
def isrRoutine (c : SigCtx) : SigCtx × List Nat :=
  (⟨0⟩, isrLoop c.sigmask 0)

/-- The observable fields of a `basic_context_thread` relevant to `start`:
the one-shot guard `started_` and the atomic `state`. -/
structure CtxThread where
  started : Bool
  state : ContextState
deriving DecidableEq, Repr

/-- The exceptions that `basic_context_thread::start` could propagate. -/
inductive CppException where
  | invalidArgument
  | systemError
deriving DecidableEq, Repr

/-- The sequence of values assigned to `state` by the worker-thread body of
`basic_context_thread::start` (context_thread_impl.hpp lines 44-90), in
program order.  `socketpairOk` is whether `socketpair` succeeded;
`stopRequested` is whether the scope's stop was requested when the worker
tests the token after `service.start` (the TCP start-failure path).

On the success path the worker assigns `state = STARTED` (the return value
of `service.start` is discarded), assigns `state = STOPPED` if the stop
token is set, runs `run()`, and finally `stop()` assigns `state = STOPPED`.
On `socketpair` failure the whole block is skipped and only `stop()` runs. -/
def workerStateTrace (socketpairOk stopRequested : Bool) : List ContextState :=
  if socketpairOk then
    if stopRequested then
      [ContextState.STARTED, ContextState.STOPPED, ContextState.STOPPED]
    else
      [ContextState.STARTED, ContextState.STOPPED]
  else
    [ContextState.STOPPED]

/-- The result of one call to `basic_context_thread::start`
(context_thread_impl.hpp lines 36-93), as observed by the calling thread
plus the worker it launches. -/
structure StartOutcome where
  /-- The exception thrown by `start`, if any.  The only `throw` in `start`
  is the `std::invalid_argument` for a second call; no path throws a
  `std::system_error`. -/
  thrown : Option CppException
  /-- The context-thread fields as the calling thread leaves them when
  `start` returns.  The calling thread only launches the worker and sets
  `started_ = true`; it contains no wait on `state`, so `state` here is
  whatever it was on entry. -/
  atReturn : CtxThread
  /-- The state values the launched worker assigns over its lifetime
  (empty when no worker was launched). -/
  workerTrace : List ContextState
deriving DecidableEq, Repr

/-- `basic_context_thread::start` (context_thread_impl.hpp lines 36-93).
Under the mutex: if `started_`, throw `std::invalid_argument`; otherwise
launch the worker thread (its assignments to `state` are reported in
`workerTrace`), set `started_ = true`, and return. -/
def ctStart (c : CtxThread) (socketpairOk stopRequested : Bool) : StartOutcome :=
  if c.started then ⟨some CppException.invalidArgument, c, []⟩
  else ⟨none, { c with started := true }, workerStateTrace socketpairOk stopRequested⟩

/-- The outcomes of the external socket calls made during service start-up,
and of the optional handler hook.  `0` is success, any other value the
`errno`-derived `std::error_code` value of that call.  `handlerInit` is
`none` when the CRTP handler does not provide its `initialize` hook
(the `if constexpr (requires ...)` branch is not compiled in), and
`some e` when it does and the hook returns `e`. -/
structure SetupEnv where
  setsockoptErr : Nat
  handlerInit : Option Nat
  bindErr : Nat
  listenErr : Nat
deriving DecidableEq, Repr

/-- `async_tcp_service::initialize_` (async_tcp_service_impl.hpp lines
118-150): `setsockopt(SO_REUSEADDR)`, then the optional handler hook, then
`bind` (followed by the infallible `getsockname` read-back), then
`listen(SOMAXCONN)`; the first failure's error code is returned, else `0`. -/
def tcpSetup (env : SetupEnv) : Nat :=
  if env.setsockoptErr ≠ 0 then env.setsockoptErr
  else if env.handlerInit.getD 0 ≠ 0 then env.handlerInit.getD 0
  else if env.bindErr ≠ 0 then env.bindErr
  else if env.listenErr ≠ 0 then env.listenErr
  else 0

/-- `async_udp_service::initialize_` (async_udp_service_impl.hpp lines
86-114): the same sequence as the TCP variant but with no `listen` step
(datagram socket). -/
def udpSetup (env : SetupEnv) : Nat :=
  if env.setsockoptErr ≠ 0 then env.setsockoptErr
  else if env.handlerInit.getD 0 ≠ 0 then env.handlerInit.getD 0
  else if env.bindErr ≠ 0 then env.bindErr
  else 0

/-- Observable result of `async_tcp_service::start` (async_tcp_service_impl.hpp
lines 49-66): whether `ctx.scope.request_stop()` was called, the value stored
into `acceptor_sockfd_` (`none` = left at `INVALID_SOCKET`), and whether the
acceptor loop was invoked (`acceptor(ctx, poller.emplace(socket))`). -/
structure TcpStartOut where
  requestedStop : Bool
  acceptorSockfd : Option Nat
  acceptorStarted : Bool
deriving DecidableEq, Repr

/-- `async_tcp_service::start(ctx)` (async_tcp_service_impl.hpp lines 49-66):
on `initialize_` failure request the scope's stop and return (void); on
success store the fd and start the acceptor. -/
def tcpStart (env : SetupEnv) (fd : Nat) : TcpStartOut :=
  if tcpSetup env ≠ 0 then ⟨true, none, false⟩
  else ⟨false, some fd, true⟩

/-- Observable result of `async_udp_service::start` (async_udp_service_impl.hpp
lines 39-53): the returned `std::error_code` value, the value stored into
`server_sockfd_` (`none` = left at `INVALID_SOCKET`), and whether the first
receive was submitted. -/
structure UdpStartOut where
  retCode : Nat
  serverSockfd : Option Nat
  recvSubmitted : Bool
deriving DecidableEq, Repr

/-- `async_udp_service::start(ctx)` (async_udp_service_impl.hpp lines 39-53):
on `initialize_` failure return that error code; on success store the fd,
submit the first `recvmsg`, and return success. -/
def udpStart (env : SetupEnv) (fd : Nat) : UdpStartOut :=
  let e := udpSetup env
  if e ≠ 0 then ⟨e, none, false⟩
  else ⟨0, some fd, true⟩

/-- `async_tcp_service::read_context` as far as the receive pipeline touches
it: the `msg` member that `submit_recv` dereferences (`rctx->msg`). -/
structure ReadContext where
  msgTag : Nat
deriving DecidableEq, Repr

/-- The operation that `async_tcp_service::submit_recv` spawns on the scope:
`io::recvmsg(socket, rctx->msg, 0) | then(...) | upon_error(...)`.  Building
it requires dereferencing `rctx->msg`. -/
structure RecvOp where
  msg : Nat
deriving DecidableEq, Repr

/-- `async_tcp_service::submit_recv(ctx, socket, rctx)`
(async_tcp_service_impl.hpp lines 84-107).  The guard `if (!rctx) return;`
exits before anything touches the context; otherwise one receive pipeline
reading `rctx->msg` is spawned on the scope.  The scope is modelled as the
list of operations spawned so far; the function returns the updated list. -/
def tcpSubmitRecv (scopeOps : List RecvOp) (rctx : Option ReadContext) :
    List RecvOp :=
  match rctx with
  | none => scopeOps
  | some r => scopeOps ++ [⟨r.msgTag⟩]

end Service

/-! Helper lemmas about the embedded definitions. -/

namespace Timers

theorem getD_set_self' (l : List Event) (i : Nat) (a d : Event)
    (h : i < l.length) : (l.set i a).getD i d = a := by
  simp [List.getD_eq_getElem?_getD, List.getElem?_set_self h]

theorem getD_set_ne' (l : List Event) {i j : Nat} (a d : Event) (h : i ≠ j) :
    (l.set i a).getD j d = l.getD j d := by
  simp [List.getD_eq_getElem?_getD, List.getElem?_set_ne h]

/-- Writing an event whose armed flag agrees with the slot's current one
leaves every slot's armed flag unchanged. -/
theorem armed_getD_set (events : List Event) (i j : Nat) (e : Event)
    (he : e.armed = (events.getD i default).armed) :
    ((events.set i e).getD j default).armed = (events.getD j default).armed := by
  rcases eq_or_ne i j with rfl | hne
  · by_cases h : i < events.length
    · rw [getD_set_self' _ _ _ _ h, he]
    · rw [List.set_eq_of_length_le (le_of_not_lt h)]
  · rw [getD_set_ne' _ _ _ hne]

/-- Writing an event whose period agrees with the slot's current one
leaves every slot's period unchanged. -/
theorem period_getD_set (events : List Event) (i j : Nat) (e : Event)
    (he : e.period = (events.getD i default).period) :
    ((events.set i e).getD j default).period = (events.getD j default).period := by
  rcases eq_or_ne i j with rfl | hne
  · by_cases h : i < events.length
    · rw [getD_set_self' _ _ _ _ h, he]
    · rw [List.set_eq_of_length_le (le_of_not_lt h)]
  · rw [getD_set_ne' _ _ _ hne]

/-- A null handler slot stays null under a write that either targets a
different slot or writes a null handler. -/
theorem handler_none_getD_set (events : List Event) (i j : Nat) (e : Event)
    (he : e.handler = none)
    (hj : (events.getD j default).handler = none) :
    ((events.set i e).getD j default).handler = none := by
  rcases eq_or_ne i j with rfl | hne
  · by_cases h : i < events.length
    · rw [getD_set_self' _ _ _ _ h, he]
    · rw [List.set_eq_of_length_le (le_of_not_lt h)]; exact hj
  · rw [getD_set_ne' _ _ _ hne]; exact hj

/-- The dequeue loop never changes any armed flag. -/
theorem dequeueLoop_armed (now : Int) (q : List EventRef) :
    ∀ (events : List Event) (free : List Nat) (j : Nat),
      ((dequeueLoop now events q free).1.getD j default).armed =
        (events.getD j default).armed := by
  induction q with
  | nil => intro events free j; rfl
  | cons next rest ih =>
    intro events free j
    rw [dequeueLoop]
    by_cases ha : (events.getD next.id default).armed = false
    · rw [if_pos ha]
      rw [ih]
      exact armed_getD_set events next.id j _ rfl
    · rw [if_neg ha]
      by_cases ht : now < next.expires_at
      · rw [if_pos ht]
      · rw [if_neg ht]
        exact ih events free j

/-- The dequeue loop keeps null handler slots null. -/
theorem dequeueLoop_handler_none (now : Int) (q : List EventRef) :
    ∀ (events : List Event) (free : List Nat) (i : Nat),
      (events.getD i default).handler = none →
      ((dequeueLoop now events q free).1.getD i default).handler = none := by
  induction q with
  | nil => intro events free i h; exact h
  | cons next rest ih =>
    intro events free i h
    rw [dequeueLoop]
    by_cases ha : (events.getD next.id default).armed = false
    · rw [if_pos ha]
      exact ih _ _ i (handler_none_getD_set events next.id i _ rfl h)
    · rw [if_neg ha]
      by_cases ht : now < next.expires_at
      · rw [if_pos ht]; exact h
      · rw [if_neg ht]
        exact ih events free i h

theorem bool_ne_true {x : Bool} (h : x = false) : ¬(x = true) := by
  simp [h]

theorem bool_not_true {x : Bool} (h : x = false) : (!x) = true := by
  simp [h]

theorem bool_not_false {x : Bool} (h : x = true) : (!x) = false := by
  simp [h]

/-- Master specification of the dequeue loop: the processed entries are
a prefix `popped` of the heap; the working list is its armed sublist (in
order); the dropped (unarmed) entries' ids are pushed onto `free_ids` in
pop order with their handlers nulled; every armed popped entry is
expired; and the loop stops on the empty heap or at an armed entry with
a future expiry. -/
theorem dequeueLoop_spec (now : Int) (q : List EventRef) :
    ∀ (events : List Event) (free : List Nat),
      ∃ popped,
        q = popped ++ (dequeueLoop now events q free).2.1 ∧
        (dequeueLoop now events q free).2.2.2 =
          popped.filter (fun r => (events.getD r.id default).armed) ∧
        (dequeueLoop now events q free).2.2.1 =
          ((popped.filter (fun r => !(events.getD r.id default).armed)).reverse.map
            EventRef.id) ++ free ∧
        (∀ r ∈ popped, (events.getD r.id default).armed = true →
          r.expires_at ≤ now) ∧
        (∀ r ∈ popped, (events.getD r.id default).armed = false →
          ((dequeueLoop now events q free).1.getD r.id default).handler = none) ∧
        ((dequeueLoop now events q free).2.1 = [] ∨
          ∃ t rest, (dequeueLoop now events q free).2.1 = t :: rest ∧
            (events.getD t.id default).armed = true ∧ now < t.expires_at) := by
  induction q with
  | nil =>
    intro events free
    exact ⟨[], rfl, rfl, rfl, by simp, by simp, Or.inl rfl⟩
  | cons next rest ih =>
    intro events free
    rw [dequeueLoop]
    by_cases ha : (events.getD next.id default).armed = false
    · rw [if_pos ha]
      have harm : ∀ j, (((events.set next.id
          { events.getD next.id default with handler := none }).getD j
            default)).armed = ((events.getD j default)).armed :=
        fun j => armed_getD_set events next.id j _ rfl
      obtain ⟨popped, h1, h2, h3, h4, h5, h6⟩ :=
        ih (events.set next.id { events.getD next.id default with handler := none })
          (next.id :: free)
      refine ⟨next :: popped, by rw [List.cons_append, ← h1], ?_, ?_, ?_, ?_, ?_⟩
      · rw [h2, List.filter_cons_of_neg
          (p := fun r => (events.getD r.id default).armed) (a := next)
          (bool_ne_true ha)]
        exact List.filter_congr fun r _ => harm r.id
      · rw [h3, List.filter_cons_of_pos
          (p := fun r => !(events.getD r.id default).armed) (a := next)
          (bool_not_true ha),
          List.reverse_cons, List.map_append]
        simp only [List.map_cons, List.map_nil, List.append_assoc,
          List.singleton_append]
        rw [List.filter_congr fun r _ => congrArg Bool.not (harm r.id)]
      · intro r hr hra
        rcases List.mem_cons.1 hr with h | hr
        · subst h
          exact absurd hra (by rw [ha]; decide)
        · exact h4 r hr ((harm r.id).trans hra)
      · intro r hr hra
        rcases List.mem_cons.1 hr with h | hr
        · subst h
          refine dequeueLoop_handler_none now rest _ _ _ ?_
          by_cases h : r.id < events.length
          · rw [getD_set_self' _ _ _ _ h]
          · rw [List.set_eq_of_length_le (le_of_not_lt h)]
            have hd : events.getD r.id default = default := by
              simp [List.getD_eq_getElem?_getD,
                List.getElem?_eq_none (le_of_not_lt h)]
            rw [hd]
            rfl
        · exact h5 r hr ((harm r.id).trans hra)
      · rcases h6 with h6 | ⟨t, trest, ht1, ht2, ht3⟩
        · exact Or.inl h6
        · exact Or.inr ⟨t, trest, ht1, (harm t.id).symm.trans ht2, ht3⟩
    · rw [if_neg ha]
      have ha' : (events.getD next.id default).armed = true := by
        simpa using ha
      by_cases ht : now < next.expires_at
      · rw [if_pos ht]
        exact ⟨[], rfl, rfl, rfl, by simp, by simp,
          Or.inr ⟨next, rest, rfl, ha', ht⟩⟩
      · rw [if_neg ht]
        simp only []
        obtain ⟨popped, h1, h2, h3, h4, h5, h6⟩ := ih events free
        refine ⟨next :: popped, by rw [List.cons_append, ← h1], ?_, ?_, ?_, ?_, h6⟩
        · rw [List.filter_cons_of_pos
            (p := fun r => (events.getD r.id default).armed) (a := next) ha', h2]
        · rw [List.filter_cons_of_neg
            (p := fun r => !(events.getD r.id default).armed) (a := next)
            (bool_ne_true (bool_not_false ha'))]
          exact h3
        · intro r hr hra
          rcases List.mem_cons.1 hr with h | hr
          · subst h
            exact le_of_not_lt ht
          · exact h4 r hr hra
        · intro r hr hra
          rcases List.mem_cons.1 hr with h | hr
          · subst h
            exact absurd hra (by rw [ha']; decide)
          · exact h5 r hr hra

/-- An event that is disarmed when the fire phase reaches it is never
fired, and stays disarmed: the fire predicate only clears armed flags,
never sets them. -/
theorem fireFold_disarmed (l : List EventRef) :
    ∀ (events : List Event) (i : Nat),
      (events.getD i default).armed = false →
      i ∉ (fireFold events l).2.1 ∧
        ((fireFold events l).1.getD i default).armed = false := by
  induction l with
  | nil => intro events i h; exact ⟨by simp [fireFold], h⟩
  | cons r rest ih =>
    intro events i h
    rw [fireFold]
    have hstep : ((fireStep events r).1.getD i default).armed = false := by
      rw [fireStep]
      simp only []
      by_cases hp : (events.getD r.id default).period = 0
      · rw [if_pos hp]
        by_cases hij : r.id = i
        · subst hij
          by_cases hb : r.id < events.length
          · rw [getD_set_self' _ _ _ _ hb]
          · rw [List.set_eq_of_length_le (le_of_not_lt hb)]
            exact h
        · rw [getD_set_ne' _ _ _ hij]
          exact h
      · rw [if_neg hp]
        exact h
    obtain ⟨ihm, iha⟩ := ih (fireStep events r).1 i hstep
    constructor
    · simp only [List.mem_append]
      rintro (hin | hin)
      · rw [fireStep] at hin
        simp only [] at hin
        by_cases harm : (events.getD r.id default).armed
        · rw [if_pos harm] at hin
          have : i = r.id := by simpa using hin
          subst this
          rw [harm] at h
          cases h
        · rw [if_neg harm] at hin
          simp at hin
      · exact ihm hin
    · exact iha

/-- An event that is armed when the fire phase reaches it is fired. -/
theorem fireFold_armed_fires (l : List EventRef) :
    ∀ (events : List Event) (r : EventRef), r ∈ l →
      (events.getD r.id default).armed = true →
      r.id ∈ (fireFold events l).2.1 := by
  induction l with
  | nil => intro events r hr; cases hr
  | cons x rest ih =>
    intro events r hr harm
    rw [fireFold]
    simp only [List.mem_append]
    rcases List.mem_cons.1 hr with h | hr
    · subst h
      left
      rw [fireStep]
      simp only [if_pos harm]
      exact List.mem_singleton.2 rfl
    · by_cases hx : x.id = r.id
      · by_cases hxa : (events.getD x.id default).armed = true
        · left
          rw [fireStep]
          simp only [if_pos hxa]
          rw [hx]
          exact List.mem_singleton.2 rfl
        · rw [hx] at hxa
          exact absurd harm hxa
      · right
        refine ih (fireStep events x).1 r hr ?_
        rw [fireStep]
        simp only []
        by_cases hp : (events.getD x.id default).period = 0
        · rw [if_pos hp, getD_set_ne' _ _ _ hx]
          exact harm
        · rw [if_neg hp]
          exact harm

/-- The fire phase never changes any event's period. -/
theorem fireFold_period (l : List EventRef) :
    ∀ (events : List Event) (i : Nat),
      ((fireFold events l).1.getD i default).period =
        (events.getD i default).period := by
  induction l with
  | nil => intro events i; rfl
  | cons r rest ih =>
    intro events i
    rw [fireFold]
    simp only []
    rw [ih]
    rw [fireStep]
    simp only []
    by_cases hp : (events.getD r.id default).period = 0
    · rw [if_pos hp]
      exact period_getD_set events r.id i _ rfl
    · rw [if_neg hp]

/-- After the fire phase, an event with zero period that appears in the
working list is disarmed (one-shot completes). -/
theorem fireFold_zero_period (l : List EventRef) :
    ∀ (events : List Event) (r : EventRef), r ∈ l →
      (events.getD r.id default).period = 0 →
      ((fireFold events l).1.getD r.id default).armed = false := by
  induction l with
  | nil => intro events r hr; cases hr
  | cons x rest ih =>
    intro events r hr hp
    rw [fireFold]
    simp only []
    rcases List.mem_cons.1 hr with h | hr
    · subst h
      have hstep : ((fireStep events r).1.getD r.id default).armed = false := by
        rw [fireStep]
        simp only [if_pos hp]
        by_cases hb : r.id < events.length
        · rw [getD_set_self' _ _ _ _ hb]
        · rw [List.set_eq_of_length_le (le_of_not_lt hb)]
          have hd : events.getD r.id default = default := by
            simp [List.getD_eq_getElem?_getD,
              List.getElem?_eq_none (le_of_not_lt hb)]
          rw [hd]
          rfl
      exact (fireFold_disarmed rest _ r.id hstep).2
    · refine ih (fireStep events x).1 r hr ?_
      rw [fireStep]
      simp only []
      by_cases hq : (events.getD x.id default).period = 0
      · rw [if_pos hq]
        exact (period_getD_set events x.id r.id
          { events.getD x.id default with armed := false } rfl).trans hp
      · rw [if_neg hq]
        exact hp

/-- Membership in a heap after a push. -/
theorem mem_heapPush (q : List EventRef) (x r : EventRef) :
    x ∈ heapPush q r ↔ x = r ∨ x ∈ q := by
  induction q with
  | nil => simp [heapPush]
  | cons y ys ih =>
    rw [heapPush]
    by_cases h : r.expires_at < y.expires_at
    · rw [if_pos h]
      simp [List.mem_cons]
    · rw [if_neg h]
      simp only [List.mem_cons, ih]
      tauto

/-- Pushing the armed section preserves heap membership. -/
theorem mem_pushArmed_of_mem (l : List EventRef) :
    ∀ (events : List Event) (q : List EventRef) (x : EventRef),
      x ∈ q → x ∈ pushArmed events q l := by
  induction l with
  | nil => intro events q x hx; exact hx
  | cons r rest ih =>
    intro events q x hx
    rw [pushArmed]
    exact ih events _ x ((mem_heapPush _ _ _).2 (Or.inr hx))

/-- Every armed-section entry is re-inserted into the heap with its
expiry advanced by its event's period. -/
theorem pushArmed_reinserts (l : List EventRef) :
    ∀ (events : List Event) (q : List EventRef) (r : EventRef), r ∈ l →
      (⟨r.expires_at + (events.getD r.id default).period, r.id⟩ : EventRef) ∈
        pushArmed events q l := by
  induction l with
  | nil => intro events q r hr; cases hr
  | cons x rest ih =>
    intro events q r hr
    rw [pushArmed]
    rcases List.mem_cons.1 hr with h | hr
    · subst h
      exact mem_pushArmed_of_mem rest events _ _ ((mem_heapPush _ _ _).2 (Or.inl rfl))
    · exact ih events _ r hr

/-- The reclaim loop does not touch the heap, and `update_timers` returns
`-1` exactly when the updated heap is empty, and otherwise the clamped
distance from `now` to the new top's expiry. -/
theorem update_timers_hint (now : Int) (s : TState) (a u : List EventRef) :
    (update_timers now s a u).1.eventq = pushArmed s.events s.eventq a ∧
    ((update_timers now s a u).2 =
      match (update_timers now s a u).1.eventq with
      | [] => (-1 : Int)
      | top :: _ => max 0 (top.expires_at - now)) ∧
    ((update_timers now s a u).2 = -1 ∨ 0 ≤ (update_timers now s a u).2) := by
  rw [update_timers]
  rcases hq : pushArmed s.events s.eventq a with _ | ⟨top, qrest⟩
  · exact ⟨rfl, rfl, Or.inl rfl⟩
  · exact ⟨rfl, rfl, Or.inr (le_max_left 0 _)⟩

namespace Service

/-- `(m >>> s) &&& 1 = 1` is exactly "bit `s` of `m` is set". -/
theorem and_one_eq_testBit (m s : Nat) : ((m >>> s) &&& 1 = 1) ↔ m.testBit s = true := by
  rw [Nat.and_one_is_mod, Nat.shiftRight_eq_div_pow, Nat.testBit_to_div_mod]
  simp

/-- The ISR drain loop visits exactly the set bits at positions `≥ s`. -/
theorem isrLoop_mem (m : Nat) : ∀ (k s b : Nat), m + 1 - s ≤ k →
    (b ∈ Service.isrLoop m s ↔ (s ≤ b ∧ m.testBit b = true)) := by
  intro k
  induction k with
  | zero =>
    intro s b hk
    have hs : m + 1 ≤ s := by omega
    have h0 : m >>> s = 0 := by
      rw [Nat.shiftRight_eq_div_pow]
      exact Nat.div_eq_of_lt (lt_of_lt_of_le (by omega : m < s) (Nat.le_of_lt (Nat.lt_two_pow s)))
    rw [Service.isrLoop, if_pos h0]
    simp only [List.not_mem_nil, false_iff]
    rintro ⟨hsb, hbit⟩
    have hm : m < 2 ^ b :=
      lt_of_lt_of_le (lt_of_lt_of_le (by omega : m < s) (Nat.le_of_lt (Nat.lt_two_pow s)))
        (Nat.pow_le_pow_right (by norm_num) hsb)
    rw [Nat.testBit_lt_two_pow hm] at hbit
    cases hbit
  | succ k ih =>
    intro s b hk
    rw [Service.isrLoop]
    by_cases h0 : m >>> s = 0
    · rw [if_pos h0]
      have hm : m < 2 ^ s := by
        rw [Nat.shiftRight_eq_div_pow] at h0
        exact (Nat.div_eq_zero_iff (Nat.pos_pow_of_pos s (by norm_num))).1 h0
      simp only [List.not_mem_nil, false_iff]
      rintro ⟨hsb, hbit⟩
      have hmb : m < 2 ^ b :=
        lt_of_lt_of_le hm (Nat.pow_le_pow_right (by norm_num) hsb)
      rw [Nat.testBit_lt_two_pow hmb] at hbit
      cases hbit
    · rw [if_neg h0]
      have hs2 : 2 ^ s ≤ m := by
        by_contra hc
        refine h0 ?_
        rw [Nat.shiftRight_eq_div_pow]
        exact Nat.div_eq_of_lt (Nat.lt_of_not_le hc)
      have hsm : s ≤ m := le_trans (Nat.le_of_lt (Nat.lt_two_pow s)) hs2
      have hk' : m + 1 - (s + 1) ≤ k := by omega
      by_cases hb1 : (m >>> s) &&& 1 = 1
      · rw [if_pos hb1, List.mem_cons, ih (s + 1) b hk']
        constructor
        · rintro (rfl | ⟨hsb, hbit⟩)
          · exact ⟨le_refl _, (and_one_eq_testBit m _).1 hb1⟩
          · exact ⟨by omega, hbit⟩
        · rintro ⟨hsb, hbit⟩
          rcases eq_or_lt_of_le hsb with rfl | hlt
          · exact Or.inl rfl
          · exact Or.inr ⟨hlt, hbit⟩
      · rw [if_neg hb1, ih (s + 1) b hk']
        constructor
        · rintro ⟨hsb, hbit⟩
          exact ⟨by omega, hbit⟩
        · rintro ⟨hsb, hbit⟩
          rcases eq_or_lt_of_le hsb with rfl | hlt
          · exact absurd ((and_one_eq_testBit m _).2 hbit) hb1
          · exact ⟨hlt, hbit⟩

/-- The ISR drain loop reports signals in strictly increasing order. -/
theorem isrLoop_pairwise (m : Nat) : ∀ (k s : Nat), m + 1 - s ≤ k →
    (Service.isrLoop m s).Pairwise (· < ·) := by
  intro k
  induction k with
  | zero =>
    intro s hk
    have h0 : m >>> s = 0 := by
      rw [Nat.shiftRight_eq_div_pow]
      exact Nat.div_eq_of_lt
        (lt_of_lt_of_le (by omega : m < s) (Nat.le_of_lt (Nat.lt_two_pow s)))
    rw [Service.isrLoop, if_pos h0]
    exact List.Pairwise.nil
  | succ k ih =>
    intro s hk
    rw [Service.isrLoop]
    by_cases h0 : m >>> s = 0
    · rw [if_pos h0]
      exact List.Pairwise.nil
    · rw [if_neg h0]
      have hs2 : 2 ^ s ≤ m := by
        by_contra hc
        refine h0 ?_
        rw [Nat.shiftRight_eq_div_pow]
        exact Nat.div_eq_of_lt (Nat.lt_of_not_le hc)
      have hsm : s ≤ m := le_trans (Nat.le_of_lt (Nat.lt_two_pow s)) hs2
      have hk' : m + 1 - (s + 1) ≤ k := by omega
      by_cases hb1 : (m >>> s) &&& 1 = 1
      · rw [if_pos hb1, List.pairwise_cons]
        refine ⟨fun b hb => ?_, ih (s + 1) hk'⟩
        have := (isrLoop_mem m (m + 1) (s + 1) b (by omega)).1 hb
        omega
      · rw [if_neg hb1]
        exact ih (s + 1) hk'

end Service

/-! Claim theorems. -/

/-- C1: evaluation of `basic_context_thread::start` on a fresh (PENDING)
context thread whose `socketpair` call fails.  `start` throws nothing (in
particular no `std::system_error` — its only throw is the
`std::invalid_argument` guarding a second call), returns with `state`
untouched by the calling thread (still PENDING: the code contains no wait
on `state != PENDING`), and the worker it launched never assigns STARTED,
ending at STOPPED.  This contradicts the claim that `start` either
completes with `state = STARTED` or throws a system error captured during
worker start, and that it does not return before the state has left
PENDING — the behaviour the repository's own test
(test_mock_socketpair.cpp, `EXPECT_THROW(service.start(), std::system_error)`)
also expects. -/
theorem c1_start_eval_on_socketpair_failure :
    Service.ctStart ⟨false, Service.ContextState.PENDING⟩ false false =
      ⟨none, ⟨true, Service.ContextState.PENDING⟩,
        [Service.ContextState.STOPPED]⟩ ∧
    Service.ContextState.STARTED ∉
      (Service.ctStart ⟨false, Service.ContextState.PENDING⟩ false false).workerTrace ∧
    (Service.ctStart ⟨false, Service.ContextState.PENDING⟩ false false).thrown ≠
      some Service.CppException.systemError := by
  refine ⟨rfl, ?_, ?_⟩ <;> decide

/-- C2 counterexample: a timer-set state on which `resolve` returns a
non-negative duration (94, i.e. not −1) although after the expired
entries have been processed the heap still holds an entry (`(100, 0)`)
whose event is unarmed — so "returns −1 iff the heap has no armed
entries" is false; the code tests heap emptiness, not armedness.  (The
state — two heap entries for one id — is reachable: the remove_if misuse
exhibited in the C5 evaluation puts an id into `free_ids` while its
entry is still queued, and a subsequent `add` recycles that id.) -/
theorem c2_counterexample_unarmed_heap_entry :
    (Timers.resolve 6 6 ⟨[⟨some 7, 0, 5, 0, true⟩],
      [⟨5, 0⟩, ⟨100, 0⟩], []⟩).2.1 = 94 ∧
    (94 : Int) ≠ -1 ∧
    (Timers.resolve 6 6 ⟨[⟨some 7, 0, 5, 0, true⟩],
      [⟨5, 0⟩, ⟨100, 0⟩], []⟩).1.eventq = [⟨100, 0⟩] ∧
    ((Timers.resolve 6 6 ⟨[⟨some 7, 0, 5, 0, true⟩],
      [⟨5, 0⟩, ⟨100, 0⟩], []⟩).1.events.getD 0 default).armed = false := by
  refine ⟨rfl, by decide, rfl, rfl⟩

/-- C2 (amended): `resolve` returns `duration(-1)` iff the heap
(`eventq`) is empty after the dequeue and re-insert phases; otherwise it
returns `max(0, top.expires_at − now)` for the new heap top, a
non-negative value, with `now` the clock reading taken inside
`update_timers`. -/
theorem c2_resolve_wait_hint :
    ∀ (now1 now2 : Int) (s : Timers.TState),
      ((Timers.resolve now1 now2 s).2.1 =
        match (Timers.resolve now1 now2 s).1.eventq with
        | [] => (-1 : Int)
        | top :: _ => max 0 (top.expires_at - now2)) ∧
      ((Timers.resolve now1 now2 s).2.1 = -1 ∨
        0 ≤ (Timers.resolve now1 now2 s).2.1) := by
  intro now1 now2 s
  exact ⟨(Timers.update_timers_hint now2 _ _ _).2.1,
    (Timers.update_timers_hint now2 _ _ _).2.2⟩

/-- C3 counterexample: after `add` at expiry 100 and `remove` of the
returned id 0, a `resolve`-phase dequeue at `now = 0` pops the entry
`(100, 0)` — whose expiry 100 is strictly in the future — dropping it to
`free_ids`; so "exactly the heap-top entries with `expires_at ≤ now` are
dequeued" is false: an unarmed top is popped whatever its expiry. -/
theorem c3_counterexample_future_unarmed_dequeued :
    (Timers.add Timers.emptyT 100 1 0).1.eventq = [⟨100, 0⟩] ∧
    (0 : Int) < 100 ∧
    (Timers.dequeue_timers 0
      (Timers.remove (Timers.add Timers.emptyT 100 1 0).1 0).1).1.eventq = [] ∧
    (Timers.dequeue_timers 0
      (Timers.remove (Timers.add Timers.emptyT 100 1 0).1 0).1).1.free_ids = [0] ∧
    (Timers.dequeue_timers 0
      (Timers.remove (Timers.add Timers.emptyT 100 1 0).1 0).1).2 = [] :=
  ⟨rfl, by decide, rfl, rfl, rfl⟩

/-- C3 (amended): the dequeue phase pops a prefix of the heap: every
popped unarmed entry — regardless of its expiry — is dropped (handler
cleared, id pushed onto `free_ids` in pop order), every popped armed
entry has `expires_at ≤ now` and goes to the working list in pop order,
and the phase stops on an empty heap or at the first armed entry with a
future expiry. -/
theorem c3_dequeue_phase :
    ∀ (now : Int) (s : Timers.TState),
      ∃ popped,
        s.eventq = popped ++ (Timers.dequeue_timers now s).1.eventq ∧
        (Timers.dequeue_timers now s).2 =
          popped.filter (fun r => (s.events.getD r.id default).armed) ∧
        (Timers.dequeue_timers now s).1.free_ids =
          ((popped.filter (fun r =>
            !(s.events.getD r.id default).armed)).reverse.map
              Timers.EventRef.id) ++ s.free_ids ∧
        (∀ r ∈ popped, (s.events.getD r.id default).armed = true →
          r.expires_at ≤ now) ∧
        (∀ r ∈ popped, (s.events.getD r.id default).armed = false →
          ((Timers.dequeue_timers now s).1.events.getD r.id default).handler =
            none) ∧
        ((Timers.dequeue_timers now s).1.eventq = [] ∨
          ∃ t rest, (Timers.dequeue_timers now s).1.eventq = t :: rest ∧
            (s.events.getD t.id default).armed = true ∧ now < t.expires_at) := by
  intro now s
  obtain ⟨popped, h1, h2, h3, h4, h5, h6⟩ :=
    Timers.dequeueLoop_spec now s.eventq s.events s.free_ids
  exact ⟨popped, h1, h2, h3, h4, h5, h6⟩

/-- C5: evaluation at a failing input.  After `add` of a periodic timer
(expiry 1, period 10, id 0), a one-shot (expiry 2, id 1), and another
periodic (expiry 3, period 10, id 2), a single `resolve` at `now = 5`
leaves `free_ids = [2]` while event 2 is still armed and its re-inserted
entry `(13, 2)` is still in the heap, and never reclaims the one-shot
id 1 (unarmed, handler still set, not in `free_ids`).  This violates
"every id in `free_ids` belongs to an event that is unarmed with no
remaining event_ref in the heap": `resolve` passes the tail of
`std::ranges::remove_if` to `update_timers` as the unarmed section, but
that tail holds leftover values (here a copy of the still-armed entry
`(3, 2)`), contradicting `update_timers`' documented
"[unarmed, end) unarmed timers section" contract. -/
theorem c5_free_ids_invariant_eval :
    (Timers.resolve 5 5 (Timers.add (Timers.add (Timers.add Timers.emptyT
      1 100 10).1 2 101 0).1 3 102 10).1).1.free_ids = [2] ∧
    ((Timers.resolve 5 5 (Timers.add (Timers.add (Timers.add Timers.emptyT
      1 100 10).1 2 101 0).1 3 102 10).1).1.events.getD 2 default).armed = true ∧
    (⟨13, 2⟩ : Timers.EventRef) ∈
      (Timers.resolve 5 5 (Timers.add (Timers.add (Timers.add Timers.emptyT
        1 100 10).1 2 101 0).1 3 102 10).1).1.eventq ∧
    ((Timers.resolve 5 5 (Timers.add (Timers.add (Timers.add Timers.emptyT
      1 100 10).1 2 101 0).1 3 102 10).1).1.events.getD 1 default).armed = false ∧
    ((Timers.resolve 5 5 (Timers.add (Timers.add (Timers.add Timers.emptyT
      1 100 10).1 2 101 0).1 3 102 10).1).1.events.getD 1 default).handler =
        some 101 ∧
    1 ∉ (Timers.resolve 5 5 (Timers.add (Timers.add (Timers.add Timers.emptyT
      1 100 10).1 2 101 0).1 3 102 10).1).1.free_ids := by
  refine ⟨rfl, rfl, ?_, rfl, rfl, ?_⟩ <;> decide

/-- C6: `remove` with an out-of-bounds id returns the id unchanged and
leaves the state untouched; with an in-bounds id it clears only that
event's armed flag (events updated at that one slot, heap and free list
unchanged) and returns `INVALID_TIMER`; and the second call of
`remove(remove(id))`, made with `INVALID_TIMER`, is a no-op returning
`INVALID_TIMER` (under `events.size() ≤ INVALID_TIMER`, which always
holds for a `std::size_t`-sized container). -/
theorem c6_remove_spec :
    (∀ (s : Timers.TState) (tid : Nat), s.events.length ≤ tid →
      Timers.remove s tid = (s, tid)) ∧
    (∀ (s : Timers.TState) (tid : Nat), tid < s.events.length →
      Timers.remove s tid =
        (⟨s.events.set tid { s.events.getD tid default with armed := false },
          s.eventq, s.free_ids⟩, Timers.INVALID_TIMER)) ∧
    (∀ (s : Timers.TState) (tid : Nat), tid < s.events.length →
      s.events.length ≤ Timers.INVALID_TIMER →
      Timers.remove (Timers.remove s tid).1 (Timers.remove s tid).2 =
        ((Timers.remove s tid).1, Timers.INVALID_TIMER)) := by
  refine ⟨?_, ?_, ?_⟩
  · intro s tid h
    rw [Timers.remove, if_pos h]
  · intro s tid h
    rw [Timers.remove, if_neg (not_le.mpr h)]
  · intro s tid h hlen
    have h1 : Timers.remove s tid =
        (⟨s.events.set tid { s.events.getD tid default with armed := false },
          s.eventq, s.free_ids⟩, Timers.INVALID_TIMER) := by
      rw [Timers.remove, if_neg (not_le.mpr h)]
    rw [h1, Timers.remove, if_pos (by simpa [List.length_set] using hlen)]

/-- C7: the signal ISR routine swaps `sigmask` to zero and calls
`signal_handler(b)` exactly once for each bit `b` set in the swapped
value, in strictly increasing bit order (membership iff the bit is set,
plus strict sortedness gives "exactly once, increasing"); and issuing
`signal(n)` twice before the drain is indistinguishable from issuing it
once (`fetch_or` coalescing). -/
theorem c7_signal_drain :
    (∀ c : Service.SigCtx, (Service.isrRoutine c).1.sigmask = 0) ∧
    (∀ m b : Nat, b ∈ (Service.isrRoutine ⟨m⟩).2 ↔ m.testBit b = true) ∧
    (∀ m : Nat, ((Service.isrRoutine ⟨m⟩).2).Pairwise (· < ·)) ∧
    (∀ (c : Service.SigCtx) (n : Nat),
      Service.isrRoutine (Service.signal n (Service.signal n c)) =
        Service.isrRoutine (Service.signal n c)) := by
  refine ⟨fun c => rfl, ?_, ?_, ?_⟩
  · intro m b
    have h := Service.isrLoop_mem m (m + 1) 0 b (by omega)
    simpa using h
  · intro m
    exact Service.isrLoop_pairwise m (m + 1) 0 (by omega)
  · intro c n
    have hmask : Service.signal n (Service.signal n c) = Service.signal n c := by
      show (⟨(c.sigmask ||| (1 <<< n)) ||| (1 <<< n)⟩ : Service.SigCtx) =
        ⟨c.sigmask ||| (1 <<< n)⟩
      rw [Nat.or_assoc, Nat.or_self]
    rw [hmask]

/-- C9: the TCP `submit_recv` guard `if (!rctx) return;` makes the call
with a null read-context a no-op: no operation is spawned on the scope
(the spawned-operation list is returned unchanged), so the
`rctx->msg` dereference in the receive pipeline is never reached for a
null `rctx`. -/
theorem c9_tcp_submit_recv_null_guard :
    ∀ scopeOps : List Service.RecvOp,
      Service.tcpSubmitRecv scopeOps none = scopeOps :=
  fun _ => rfl

/-- C10: the `std::uint64_t` overload of `timers::add` interprets its
first argument as a microsecond count relative to `clock::now()` (and
its period likewise in microseconds): it equals the duration overload at
`microseconds(when)`, which equals the timestamp overload at
`now + microseconds(when)`. -/
theorem c10_add_u64_equiv :
    ∀ (s : Timers.TState) (now : Int) (when handler period : Nat),
      Timers.addU64 s now when handler period =
        Timers.add s (now + (when : Int)) handler (period : Int) ∧
      Timers.addU64 s now when handler period =
        Timers.addDur s now (when : Int) handler (period : Int) :=
  fun _ _ _ _ _ => ⟨rfl, rfl⟩

/-- C4: the fire-and-reinsert phases of `resolve`.  (1) An event that is
disarmed when the fire phase reaches it is not fired; (2) in particular
a `remove` (which only clears the armed flag) performed between dequeue
and fire cancels the fire; (3) an event armed at call time whose entry
is in the working list is fired; (4) after the fire phase, a zero-period
(one-shot) working-list event is disarmed; (5) every armed-section entry
is re-inserted into the heap with `expires_at` advanced by its event's
period; (6) hence a single periodic timer with period `p > 0` and
current expiry `t + k·p`, once expired, fires exactly once per `resolve`
(log `[0]`) and its heap entry advances to `t + (k+1)·p` — successive
firings at `t, t+p, t+2p, …` absent cancellation. -/
theorem c4_fire_and_reinsert :
    (∀ (events : List Timers.Event) (l : List Timers.EventRef) (i : Nat),
      (events.getD i default).armed = false →
      i ∉ (Timers.fireFold events l).2.1) ∧
    (∀ (s : Timers.TState) (i : Nat) (l : List Timers.EventRef),
      i < s.events.length →
      i ∉ (Timers.fireFold ((Timers.remove s i).1).events l).2.1) ∧
    (∀ (events : List Timers.Event) (l : List Timers.EventRef)
      (r : Timers.EventRef), r ∈ l →
      (events.getD r.id default).armed = true →
      r.id ∈ (Timers.fireFold events l).2.1) ∧
    (∀ (events : List Timers.Event) (l : List Timers.EventRef)
      (r : Timers.EventRef), r ∈ l →
      (events.getD r.id default).period = 0 →
      ((Timers.fireFold events l).1.getD r.id default).armed = false) ∧
    (∀ (now : Int) (s : Timers.TState) (a u : List Timers.EventRef)
      (r : Timers.EventRef), r ∈ a →
      (⟨r.expires_at + (s.events.getD r.id default).period, r.id⟩ :
        Timers.EventRef) ∈ (Timers.update_timers now s a u).1.eventq) ∧
    (∀ (t p : Int) (k : Nat) (hdl : Nat) (now1 now2 : Int), 0 < p →
      t + (k : Int) * p ≤ now1 →
      Timers.resolve now1 now2
          ⟨[⟨some hdl, 0, t, p, true⟩], [⟨t + (k : Int) * p, 0⟩], []⟩ =
        (⟨[⟨some hdl, 0, t, p, true⟩], [⟨t + ((k : Int) + 1) * p, 0⟩], []⟩,
          max 0 (t + ((k : Int) + 1) * p - now2), [0])) := by
  refine ⟨?_, ?_, ?_, ?_, ?_, ?_⟩
  · intro events l i h
    exact (Timers.fireFold_disarmed l events i h).1
  · intro s i l h
    have hrm : (Timers.remove s i).1 =
        ⟨s.events.set i { s.events.getD i default with armed := false },
          s.eventq, s.free_ids⟩ := by
      rw [Timers.remove, if_neg (not_le.mpr h)]
    rw [hrm]
    refine (Timers.fireFold_disarmed l _ i ?_).1
    rw [Timers.getD_set_self' _ _ _ _ h]
  · intro events l r hr ha
    exact Timers.fireFold_armed_fires l events r hr ha
  · intro events l r hr hp
    exact Timers.fireFold_zero_period l events r hr hp
  · intro now s a u r hr
    rw [(Timers.update_timers_hint now s a u).1]
    exact Timers.pushArmed_reinserts a s.events s.eventq r hr
  · intro t p k hdl now1 now2 hp hle
    have harith : t + (k : Int) * p + p = t + ((k : Int) + 1) * p := by ring
    have hd : Timers.dequeueLoop now1 [⟨some hdl, 0, t, p, true⟩]
        [⟨t + (k : Int) * p, 0⟩] [] =
        ([⟨some hdl, 0, t, p, true⟩], [], [], [⟨t + (k : Int) * p, 0⟩]) := by
      rw [Timers.dequeueLoop]
      rw [if_neg (by simp), if_neg (not_lt.mpr hle)]
      rw [Timers.dequeueLoop]
    have hdq : Timers.dequeue_timers now1
        ⟨[⟨some hdl, 0, t, p, true⟩], [⟨t + (k : Int) * p, 0⟩], []⟩ =
        (⟨[⟨some hdl, 0, t, p, true⟩], [], []⟩, [⟨t + (k : Int) * p, 0⟩]) := by
      simp only [Timers.dequeue_timers]
      rw [hd]
    have hff : Timers.fireFold [⟨some hdl, 0, t, p, true⟩]
        [⟨t + (k : Int) * p, 0⟩] =
        ([⟨some hdl, 0, t, p, true⟩], [0], [⟨t + (k : Int) * p, 0⟩]) := by
      rw [Timers.fireFold, Timers.fireFold, Timers.fireStep]
      simp [hp.ne']
    have hu : Timers.update_timers now2 ⟨[⟨some hdl, 0, t, p, true⟩], [], []⟩
        [⟨t + (k : Int) * p, 0⟩] [] =
        (⟨[⟨some hdl, 0, t, p, true⟩], [⟨t + ((k : Int) + 1) * p, 0⟩], []⟩,
          max 0 (t + ((k : Int) + 1) * p - now2)) := by
      rw [Timers.update_timers]
      simp only [Timers.pushArmed, Timers.reclaimUnarmed, Timers.heapPush]
      simp only [List.getD_cons_zero]
      rw [harith]
    simp only [Timers.resolve]
    rw [hdq]
    simp only []
    rw [hff]
    simp only [List.length_cons, List.length_nil, List.drop_succ_cons,
      List.drop_nil]
    rw [hu]

/-- C4 witness: the six parts of `c4_fire_and_reinsert` at concrete
inputs — a disarmed event is skipped; a removed event is skipped; an
armed event fires; a one-shot ends disarmed; an armed-section entry is
re-queued shifted by its period; and one periodic step at
`t = 2, p = 10, k = 1` fires once and advances the entry from 12 to 22. -/
theorem c4_fire_and_reinsert_witness :
    0 ∉ (Timers.fireFold [⟨some 3, 0, 1, 0, false⟩] [⟨1, 0⟩]).2.1 ∧
    0 ∉ (Timers.fireFold
      ((Timers.remove ⟨[⟨some 3, 0, 1, 0, true⟩], [⟨1, 0⟩], []⟩ 0).1).events
      [⟨1, 0⟩]).2.1 ∧
    0 ∈ (Timers.fireFold [⟨some 3, 0, 1, 0, true⟩] [⟨1, 0⟩]).2.1 ∧
    ((Timers.fireFold [⟨some 3, 0, 1, 0, true⟩] [⟨1, 0⟩]).1.getD 0
      default).armed = false ∧
    (⟨11, 0⟩ : Timers.EventRef) ∈
      (Timers.update_timers 5 ⟨[⟨some 3, 0, 1, 10, true⟩], [], []⟩
        [⟨1, 0⟩] []).1.eventq ∧
    Timers.resolve 12 12 ⟨[⟨some 9, 0, 2, 10, true⟩], [⟨12, 0⟩], []⟩ =
      (⟨[⟨some 9, 0, 2, 10, true⟩], [⟨22, 0⟩], []⟩, 10, [0]) := by
  refine ⟨c4_fire_and_reinsert.1 _ _ 0 (by decide),
    c4_fire_and_reinsert.2.1 _ 0 _ (by decide),
    c4_fire_and_reinsert.2.2.1 _ _ ⟨1, 0⟩ (by decide) (by decide),
    c4_fire_and_reinsert.2.2.2.1 _ _ ⟨1, 0⟩ (by decide) (by decide),
    ?_, ?_⟩
  · have h := c4_fire_and_reinsert.2.2.2.2.1 5
      ⟨[⟨some 3, 0, 1, 10, true⟩], [], []⟩ [⟨1, 0⟩] [] ⟨1, 0⟩ (by decide)
    simpa using h
  · have h := c4_fire_and_reinsert.2.2.2.2.2 2 10 1 9 12 12 (by decide)
      (by decide)
    refine h.trans ?_
    norm_num

/-- C6 witness: the three parts of `c6_remove_spec` at a concrete
one-event timer state (and, for the out-of-bounds part, id 3). -/
theorem c6_remove_spec_witness :
    Timers.remove ⟨[⟨some 5, 0, 10, 0, true⟩], [⟨10, 0⟩], []⟩ 3 =
      (⟨[⟨some 5, 0, 10, 0, true⟩], [⟨10, 0⟩], []⟩, 3) ∧
    Timers.remove ⟨[⟨some 5, 0, 10, 0, true⟩], [⟨10, 0⟩], []⟩ 0 =
      (⟨[⟨some 5, 0, 10, 0, false⟩], [⟨10, 0⟩], []⟩, Timers.INVALID_TIMER) ∧
    Timers.remove
        (Timers.remove ⟨[⟨some 5, 0, 10, 0, true⟩], [⟨10, 0⟩], []⟩ 0).1
        (Timers.remove ⟨[⟨some 5, 0, 10, 0, true⟩], [⟨10, 0⟩], []⟩ 0).2 =
      ((Timers.remove ⟨[⟨some 5, 0, 10, 0, true⟩], [⟨10, 0⟩], []⟩ 0).1,
        Timers.INVALID_TIMER) := by
  refine ⟨c6_remove_spec.1 _ 3 (by decide), ?_,
    c6_remove_spec.2.2 _ 0 (by decide) (by decide)⟩
  have h := c6_remove_spec.2.1 ⟨[⟨some 5, 0, 10, 0, true⟩], [⟨10, 0⟩], []⟩ 0
    (by decide)
  exact h.trans (by decide)

/-- C8: start-up failure surfacing by service variant.  When its socket
setup fails, `async_udp_service::start` returns the failing step's error
code without storing the server fd and without submitting a receive,
while `async_tcp_service::start` requests the context scope's stop and
returns (void) without storing the acceptor fd and without starting the
acceptor; on success each stores the fd and arms its first async
operation.  The per-step conjuncts identify the returned code with the
first failing step's code — `setsockopt`, the optional handler hook,
`bind`, and (TCP only: the UDP datagram setup has no such step)
`listen`. -/
theorem c8_startup_failure_surfacing :
    (∀ (env : Service.SetupEnv) (fd : Nat), Service.udpSetup env ≠ 0 →
      Service.udpStart env fd = ⟨Service.udpSetup env, none, false⟩) ∧
    (∀ (env : Service.SetupEnv) (fd : Nat), Service.udpSetup env = 0 →
      Service.udpStart env fd = ⟨0, some fd, true⟩) ∧
    (∀ (env : Service.SetupEnv) (fd : Nat), Service.tcpSetup env ≠ 0 →
      Service.tcpStart env fd = ⟨true, none, false⟩) ∧
    (∀ (env : Service.SetupEnv) (fd : Nat), Service.tcpSetup env = 0 →
      Service.tcpStart env fd = ⟨false, some fd, true⟩) ∧
    (∀ env : Service.SetupEnv, env.setsockoptErr ≠ 0 →
      Service.udpSetup env = env.setsockoptErr ∧
        Service.tcpSetup env = env.setsockoptErr) ∧
    (∀ (env : Service.SetupEnv) (e : Nat), env.setsockoptErr = 0 →
      env.handlerInit = some e → e ≠ 0 →
      Service.udpSetup env = e ∧ Service.tcpSetup env = e) ∧
    (∀ env : Service.SetupEnv, env.setsockoptErr = 0 →
      env.handlerInit.getD 0 = 0 → env.bindErr ≠ 0 →
      Service.udpSetup env = env.bindErr ∧
        Service.tcpSetup env = env.bindErr) ∧
    (∀ env : Service.SetupEnv, env.setsockoptErr = 0 →
      env.handlerInit.getD 0 = 0 → env.bindErr = 0 → env.listenErr ≠ 0 →
      Service.tcpSetup env = env.listenErr ∧ Service.udpSetup env = 0) := by
  refine ⟨?_, ?_, ?_, ?_, ?_, ?_, ?_, ?_⟩
  · intro env fd h
    simp only [Service.udpStart]
    rw [if_pos h]
  · intro env fd h
    simp only [Service.udpStart]
    rw [if_neg (by simp [h])]
  · intro env fd h
    simp only [Service.tcpStart]
    rw [if_pos h]
  · intro env fd h
    simp only [Service.tcpStart]
    rw [if_neg (by simp [h])]
  · intro env h
    exact ⟨by rw [Service.udpSetup, if_pos h], by rw [Service.tcpSetup, if_pos h]⟩
  · intro env e h0 hh he
    constructor
    · rw [Service.udpSetup]
      simp [h0, hh, he]
    · rw [Service.tcpSetup]
      simp [h0, hh, he]
  · intro env h0 hh hb
    constructor
    · rw [Service.udpSetup]
      simp [h0, hh, hb]
    · rw [Service.tcpSetup]
      simp [h0, hh, hb]
  · intro env h0 hh hb hl
    constructor
    · rw [Service.tcpSetup]
      simp [h0, hh, hb, hl]
    · rw [Service.udpSetup]
      simp [h0, hh, hb]

/-- C8 witness: each part of `c8_startup_failure_surfacing` at a
concrete setup-outcome environment (error codes 7, 9, 3, 5 for the
setsockopt, handler-hook, bind and listen steps respectively). -/
theorem c8_startup_failure_surfacing_witness :
    Service.udpStart ⟨7, none, 0, 0⟩ 4 = ⟨7, none, false⟩ ∧
    Service.udpStart ⟨0, some 0, 0, 0⟩ 4 = ⟨0, some 4, true⟩ ∧
    Service.tcpStart ⟨0, some 9, 0, 0⟩ 4 = ⟨true, none, false⟩ ∧
    Service.tcpStart ⟨0, none, 0, 0⟩ 4 = ⟨false, some 4, true⟩ ∧
    (Service.udpSetup ⟨7, none, 0, 0⟩ = 7 ∧
      Service.tcpSetup ⟨7, none, 0, 0⟩ = 7) ∧
    (Service.udpSetup ⟨0, some 9, 0, 0⟩ = 9 ∧
      Service.tcpSetup ⟨0, some 9, 0, 0⟩ = 9) ∧
    (Service.udpSetup ⟨0, none, 3, 0⟩ = 3 ∧
      Service.tcpSetup ⟨0, none, 3, 0⟩ = 3) ∧
    (Service.tcpSetup ⟨0, none, 0, 5⟩ = 5 ∧
      Service.udpSetup ⟨0, none, 0, 5⟩ = 0) := by
  refine ⟨?_, c8_startup_failure_surfacing.2.1 _ 4 (by decide),
    c8_startup_failure_surfacing.2.2.1 _ 4 (by decide),
    c8_startup_failure_surfacing.2.2.2.1 _ 4 (by decide),
    c8_startup_failure_surfacing.2.2.2.2.1 _ (by decide),
    c8_startup_failure_surfacing.2.2.2.2.2.1 _ 9 (by decide) (by decide)
      (by decide),
    c8_startup_failure_surfacing.2.2.2.2.2.2.1 _ (by decide) (by decide)
      (by decide),
    c8_startup_failure_surfacing.2.2.2.2.2.2.2 _ (by decide) (by decide)
      (by decide) (by decide)⟩
  have h := c8_startup_failure_surfacing.1 ⟨7, none, 0, 0⟩ 4 (by decide)
  exact h.trans (by decide)
